import Mathlib

/-!
Shallow embedding of the tourist-information workflow
(src/tourist-destinations-shortlist.py) and proofs about it.

The program is a three-step LangGraph workflow over a typed state record:
a destinations step that calls an external model and parses its response,
an attractions step that processes each destination (with per-item error
recovery), a report step, and an integer-driven router.  The external
model is treated as an opaque behaviour: a string response for the
destinations step and a per-city function returning either a response or
a failure for the attractions step.
-/

set_option autoImplicit false
set_option linter.unusedVariables false

namespace Tourist

/-! ### Python string primitives, at the character-list level -/

/-- The whitespace characters removed by Python str.strip with no
argument (restricted to the ASCII range, which is all the program's
prompts and markers use). -/
def pyWs (c : Char) : Bool :=
  c = ' ' || c = '\t' || c = '\n' || c = '\r' || c = '\x0b' || c = '\x0c'

/-- Remove trailing whitespace, as Python str.rstrip. -/
def stripTrail (l : List Char) : List Char :=
  (l.reverse.dropWhile pyWs).reverse

/-- Remove leading and trailing whitespace, as Python str.strip. -/
def stripChars (l : List Char) : List Char :=
  (stripTrail l).dropWhile pyWs

/-- Python str.strip on strings. -/
def pyStrip (s : String) : String :=
  String.mk (stripChars s.toList)

/-- Python str.split on a single newline character: splitting the empty
string yields one empty piece, and every newline separates two pieces. -/
def splitNl : List Char → List (List Char)
  | [] => [[]]
  | c :: cs =>
    if c = '\n' then [] :: splitNl cs
    else
      match splitNl cs with
      | [] => [[c]]
      | l :: ls => (c :: l) :: ls

/-! ### Parsing helpers of the two model-calling nodes -/

/-- Source lines 64-68: strip the response, split it on newlines, keep
the stripped non-blank lines, and truncate to the first 10. -/
def parseDestinations (response : String) : List String :=
  let destinations_text := pyStrip response
  let destinations :=
    ((splitNl destinations_text.toList).filter
      (fun line => !(stripChars line).isEmpty)).map
      (fun line => String.mk (stripChars line))
  destinations.take 10

/-- Source line 115: Python item.lstrip with the character set
0123456789, the dot and the space. -/
def cleanItem (item : String) : String :=
  String.mk (item.toList.dropWhile (fun c => c.isDigit || c = '.' || c = ' '))

/-- Source lines 107-120: strip the response, split on newlines, keep
the stripped lines that are non-blank and contain a digit or a letter,
remove leading numbers and punctuation from each, drop the entries that
become empty, and truncate to the first 5. -/
def parseAttractions (response : String) : List String :=
  let attractions_text := pyStrip response
  let attraction_list :=
    ((splitNl attractions_text.toList).filter
      (fun line => !(stripChars line).isEmpty
        && line.any (fun c => c.isDigit || c.isAlpha))).map
      (fun line => String.mk (stripChars line))
  let clean_attractions :=
    (attraction_list.map cleanItem).filter (fun s => !s.isEmpty)
  clean_attractions.take 5

/-- Source lines 90-95: split a destination at the first separator into
a (country, city) pair, with the sentinel country when no separator is
present. -/
def splitCountryCity (destination : String) : String × String :=
  if destination.toList.contains '-' then
    (String.mk (destination.toList.takeWhile (fun c => c != '-')),
     String.mk ((destination.toList.dropWhile (fun c => c != '-')).drop 1))
  else
    ("Unknown", destination)

/-! ### The state record, the update deltas and the merge -/

/-- Source lines 14-26: the State TypedDict.  Messages are modelled by
their content strings; the attractions dictionary by an insertion-ordered
association list. -/
structure State where
  messages : List String
  destinations : List String
  attractions : List (String × List String)
  step : Int
  deriving Repr, DecidableEq

/-- The dictionary a node returns: each field is optional, an absent
field meaning the node does not mention it. -/
structure StateUpdate where
  messages : Option (List String)
  destinations : Option (List String)
  attractions : Option (List (String × List String))
  step : Option Int
  deriving Repr, DecidableEq

/-- Modelled from the spec: the engine's merge of a node's returned
delta into the running state (the LangGraph channel update driven by the
State annotations on source lines 14-26).  The messages field is
annotated with add_messages, so a present messages list is appended;
every other field present in the delta overwrites; absent fields are
left untouched. -/
def mergeState (st : State) (u : StateUpdate) : State :=
  State.mk
    (st.messages ++ u.messages.getD [])
    (u.destinations.getD st.destinations)
    (u.attractions.getD st.attractions)
    (u.step.getD st.step)

/-! ### The Python dict built by the attractions node -/

/-- Assignment into an insertion-ordered dictionary: an existing key
keeps its position and gets the new value, a new key is appended. -/
def dictInsert (d : List (String × List String)) (k : String)
    (v : List String) : List (String × List String) :=
  if d.any (fun p => p.1 == k) then
    d.map (fun p => if p.1 == k then (k, v) else p)
  else
    d ++ [(k, v)]

/-! ### The three nodes -/

/-- The behaviour of the external model during one workflow run: the
response to the destinations prompt, and for each city of the
attractions prompt either a response or a raised exception (none). -/
structure Oracle where
  destResponse : String
  attrModel : String → Option String

/-- Source lines 53-76: query the model once, parse the response into at
most 10 destinations, advance the step and append the raw response to
the conversation. -/
def get_destinations_node (response : String) (st : State) : StateUpdate :=
  StateUpdate.mk (some [response]) (some (parseDestinations response)) none (some 2)

/-- Source lines 87-126, the body of the per-destination loop: split the
destination, query the model for the city, parse the response; a raised
exception (none from the model) is caught and replaced by the
single-element degraded marker. -/
def processItem (model : String → Option String) (destination : String) :
    List String :=
  match model (splitCountryCity destination).2 with
  | some response => parseAttractions response
  | none => ["Error retrieving attractions"]

/-- Source lines 85-127: the attractions dictionary built across all
destinations, in sequence order. -/
def get_attractions_results (model : String → Option String)
    (destinations : List String) : List (String × List String) :=
  destinations.foldl
    (fun attractions destination =>
      dictInsert attractions destination (processItem model destination))
    []

/-- Source lines 78-132: process every destination, store the resulting
dictionary, advance the step, and append no messages. -/
def get_attractions_node (model : String → Option String) (st : State) :
    StateUpdate :=
  StateUpdate.mk (some [])
    none
    (some (get_attractions_results model st.destinations))
    (some 3)

/-- Source lines 134-161: the report node only prints; its delta resets
the step to 0. -/
def display_results_node (st : State) : StateUpdate :=
  StateUpdate.mk none none none (some 0)

/-! ### Router and engine -/

/-- The LangGraph terminal pseudo-node. -/
def END : String := "__end__"

/-- Source lines 164-178: pure routing on the step field; every value
outside 1, 2, 3 routes to END. -/
def route_by_step (st : State) : String :=
  let step := st.step
  if step = 1 then "get_destinations"
  else if step = 2 then "get_attractions"
  else if step = 3 then "display_results"
  else END

/-- Dispatch a node name to its node function under a fixed oracle
(source lines 184-186); an unknown name is a no-op delta. -/
def runNode (o : Oracle) (name : String) (st : State) : StateUpdate :=
  if name = "get_destinations" then get_destinations_node o.destResponse st
  else if name = "get_attractions" then get_attractions_node o.attrModel st
  else if name = "display_results" then display_results_node st
  else StateUpdate.mk none none none none

/-- Modelled from the spec: the workflow engine (the compiled LangGraph
app of source lines 181-214).  Starting from a node name it executes the
node, merges its delta, asks the router for the next name and repeats
until the router yields END; fuel bounds the number of node executions,
with none reported when it runs out. -/
def runFrom (o : Oracle) (fuel : Nat) (name : String) (st : State) :
    Option State :=
  match fuel with
  | 0 => none
  | n + 1 =>
    let st' := mergeState st (runNode o name st)
    let next := route_by_step st'
    if next = END then some st' else runFrom o n next st'

/-- Source lines 233-238: the initial state of a run. -/
def initial_state : State := State.mk [] [] [] 1

/-! ### Spec-side characterisations of the parsed values -/

/-- The non-blank lines of a raw response, in order, each stripped of
surrounding whitespace. -/
def nonBlankLines (response : String) : List String :=
  ((splitNl response.toList).filter
    (fun line => !(stripChars line).isEmpty)).map
    (fun line => String.mk (stripChars line))

/-- The cleaned attraction sequence exactly as claim C6 words it: the
non-blank lines of the response, each with leading enumeration markers
stripped, truncated to the first 5. -/
def claimedCleanedLines (response : String) : List String :=
  (((splitNl response.toList).filter
    (fun line => !(stripChars line).isEmpty)).map
    (fun line => cleanItem (String.mk (stripChars line)))).take 5

/-- The amended C6 value: the non-blank lines of the response that
contain at least one digit or letter, each stripped of surrounding
whitespace and of leading characters among the digits, the dot and the
space, with entries that become empty dropped, truncated to the first
5. -/
def cleanedAttractionLines (response : String) : List String :=
  (((((splitNl response.toList).filter
      (fun line => !(stripChars line).isEmpty
        && line.any (fun c => c.isDigit || c.isAlpha))).map
      (fun line => String.mk (stripChars line))).map cleanItem).filter
      (fun s => !s.isEmpty)).take 5

/-! ### Lemmas about stripping -/

theorem stripChars_nil : stripChars [] = [] := rfl

theorem stripTrail_append_ws {c : Char} (hc : pyWs c = true) (l : List Char) :
    stripTrail (l ++ [c]) = stripTrail l := by
  simp [stripTrail, List.dropWhile_cons, hc]

theorem stripChars_append_ws {c : Char} (hc : pyWs c = true) (l : List Char) :
    stripChars (l ++ [c]) = stripChars l := by
  simp [stripChars, stripTrail_append_ws hc]

theorem stripChars_cons_ws {c : Char} (hc : pyWs c = true) (l : List Char) :
    stripChars (c :: l) = stripChars l := by
  unfold stripChars
  by_cases h : List.dropWhile pyWs l.reverse = []
  · have h1 : stripTrail l = [] := by simp [stripTrail, h]
    have h2 : stripTrail (c :: l) = [] := by
      simp [stripTrail, List.dropWhile_append, h, List.dropWhile_cons, hc]
    rw [h1, h2]
  · have h2 : stripTrail (c :: l) = c :: stripTrail l := by
      have : List.dropWhile pyWs (l.reverse ++ [c])
          = List.dropWhile pyWs l.reverse ++ [c] := by
        rw [List.dropWhile_append]
        simp [h]
      simp [stripTrail, this]
    rw [h2, List.dropWhile_cons]
    simp [hc]

/-! ### Lemmas about splitting on newlines -/

theorem splitNl_ne_nil (l : List Char) : splitNl l ≠ [] := by
  cases l with
  | nil => simp [splitNl]
  | cons c cs =>
    simp only [splitNl]
    by_cases hc : c = '\n'
    · simp [hc]
    · simp only [hc, if_false]
      cases h : splitNl cs <;> simp

/-- Append a character to the last line of a list of lines. -/
def appendLast : List (List Char) → Char → List (List Char)
  | [], c => [[c]]
  | [l], c => [l ++ [c]]
  | l :: ls, c => l :: appendLast ls c

theorem appendLast_cons {ls : List (List Char)} (h : ls ≠ [])
    (l : List Char) (c : Char) :
    appendLast (l :: ls) c = l :: appendLast ls c := by
  cases ls with
  | nil => exact absurd rfl h
  | cons m ms => rfl

theorem splitNl_cons_nl (l : List Char) :
    splitNl ('\n' :: l) = [] :: splitNl l := by
  simp [splitNl]

theorem splitNl_cons_ne {a : Char} (ha : ¬ a = '\n') {l : List Char}
    {l0 : List Char} {ls0 : List (List Char)} (h : splitNl l = l0 :: ls0) :
    splitNl (a :: l) = (a :: l0) :: ls0 := by
  simp only [splitNl]
  rw [if_neg ha, h]

theorem splitNl_append_single (x : List Char) (c : Char) :
    splitNl (x ++ [c]) =
      if c = '\n' then splitNl x ++ [[]] else appendLast (splitNl x) c := by
  induction x with
  | nil => by_cases hc : c = '\n' <;> simp [splitNl, appendLast, hc]
  | cons a x ih =>
    rcases hx : splitNl x with _ | ⟨l0, ls0⟩
    · exact absurd hx (splitNl_ne_nil x)
    by_cases ha : a = '\n'
    · subst ha
      rw [List.cons_append, splitNl_cons_nl, ih, splitNl_cons_nl]
      by_cases hc : c = '\n'
      · simp [hc]
      · rw [if_neg hc, if_neg hc, appendLast_cons (splitNl_ne_nil x)]
    · by_cases hc : c = '\n'
      · have hrest : splitNl (x ++ [c]) = l0 :: (ls0 ++ [[]]) := by
          rw [ih, if_pos hc, hx]
          rfl
        rw [List.cons_append, splitNl_cons_ne ha hrest, if_pos hc,
          splitNl_cons_ne ha hx]
        rfl
      · have hih := ih
        rw [if_neg hc, hx] at hih
        rw [List.cons_append, if_neg hc, splitNl_cons_ne ha hx]
        rcases ls0 with _ | ⟨m, ms⟩
        · have hrest : splitNl (x ++ [c]) = [l0 ++ [c]] := hih
          rw [splitNl_cons_ne ha hrest]
          simp [appendLast]
        · have hrest : splitNl (x ++ [c])
              = l0 :: appendLast (m :: ms) c := by
            rw [hih, appendLast_cons (by simp)]
          rw [splitNl_cons_ne ha hrest,
            appendLast_cons (by simp : (m :: ms : List (List Char)) ≠ [])]

/-! ### The line pipeline: split, filter, strip

Both parsing nodes strip the whole response before splitting it into
lines.  The lemmas of this section show that this pre-strip never
changes the resulting line sequence, for any per-line filter that
ignores surrounding whitespace. -/

/-- Whether a line survives the per-line filter: its stripped form is
non-blank and it satisfies the extra predicate. -/
def lineKeep (P : List Char → Bool) (line : List Char) : Bool :=
  !(stripChars line).isEmpty && P line

/-- Filter a list of lines and strip the survivors. -/
def pipeLines (P : List Char → Bool) (ls : List (List Char)) :
    List (List Char) :=
  (ls.filter (lineKeep P)).map stripChars

/-- Split a text into lines, filter and strip them. -/
def pipe (P : List Char → Bool) (l : List Char) : List (List Char) :=
  pipeLines P (splitNl l)

theorem pipeLines_cons (P : List Char → Bool) (a : List Char)
    (ls : List (List Char)) :
    pipeLines P (a :: ls) =
      if lineKeep P a = true then stripChars a :: pipeLines P ls
      else pipeLines P ls := by
  simp only [pipeLines, List.filter_cons]
  split <;> simp

theorem lineKeep_nil (P : List Char → Bool) : lineKeep P [] = false := rfl

theorem lineKeep_cons_ws (P : List Char → Bool)
    (hP : ∀ c line, pyWs c = true → P (c :: line) = P line)
    {c : Char} (hc : pyWs c = true) (line : List Char) :
    lineKeep P (c :: line) = lineKeep P line := by
  simp [lineKeep, stripChars_cons_ws hc, hP c line hc]

theorem lineKeep_append_ws (P : List Char → Bool)
    (hP : ∀ c line, pyWs c = true → P (line ++ [c]) = P line)
    {c : Char} (hc : pyWs c = true) (line : List Char) :
    lineKeep P (line ++ [c]) = lineKeep P line := by
  simp [lineKeep, stripChars_append_ws hc, hP c line hc]

theorem pipe_cons_ws (P : List Char → Bool)
    (hP : ∀ c line, pyWs c = true → P (c :: line) = P line)
    {c : Char} (hc : pyWs c = true) (l : List Char) :
    pipe P (c :: l) = pipe P l := by
  by_cases hnl : c = '\n'
  · subst hnl
    simp [pipe, splitNl_cons_nl, pipeLines_cons, lineKeep_nil]
  · rcases hx : splitNl l with _ | ⟨l0, ls0⟩
    · exact absurd hx (splitNl_ne_nil l)
    · simp only [pipe, splitNl_cons_ne hnl hx, hx, pipeLines_cons,
        lineKeep_cons_ws P hP hc, stripChars_cons_ws hc]

theorem pipe_dropWhile (P : List Char → Bool)
    (hP : ∀ c line, pyWs c = true → P (c :: line) = P line)
    (l : List Char) :
    pipe P (l.dropWhile pyWs) = pipe P l := by
  induction l with
  | nil => rfl
  | cons c cs ih =>
    by_cases hc : pyWs c = true
    · rw [List.dropWhile_cons, if_pos hc, ih, pipe_cons_ws P hP hc]
    · rw [List.dropWhile_cons, if_neg hc]

theorem pipeLines_appendLast (P : List Char → Bool)
    (hP : ∀ c line, pyWs c = true → P (line ++ [c]) = P line)
    {c : Char} (hc : pyWs c = true) :
    ∀ ls : List (List Char), ls ≠ [] →
      pipeLines P (appendLast ls c) = pipeLines P ls := by
  intro ls
  induction ls with
  | nil => intro h; exact absurd rfl h
  | cons l ls ih =>
    intro _
    rcases ls with _ | ⟨m, ms⟩
    · show pipeLines P [l ++ [c]] = pipeLines P [l]
      rw [pipeLines_cons, pipeLines_cons, lineKeep_append_ws P hP hc,
        stripChars_append_ws hc]
    · rw [appendLast_cons (by simp), pipeLines_cons, pipeLines_cons,
        ih (by simp)]

theorem pipe_append_ws (P : List Char → Bool)
    (hP : ∀ c line, pyWs c = true → P (line ++ [c]) = P line)
    {c : Char} (hc : pyWs c = true) (l : List Char) :
    pipe P (l ++ [c]) = pipe P l := by
  rw [pipe, splitNl_append_single]
  by_cases hnl : c = '\n'
  · rw [if_pos hnl]
    simp only [pipe, pipeLines, List.filter_append, List.map_append]
    simp [lineKeep_nil]
  · rw [if_neg hnl, pipeLines_appendLast P hP hc _ (splitNl_ne_nil l)]
    rfl

theorem pipe_stripTrail (P : List Char → Bool)
    (hPc : ∀ c line, pyWs c = true → P (c :: line) = P line)
    (hPa : ∀ c line, pyWs c = true → P (line ++ [c]) = P line)
    (l : List Char) :
    pipe P (stripTrail l) = pipe P l := by
  have aux : ∀ r : List Char,
      pipe P ((r.dropWhile pyWs).reverse) = pipe P r.reverse := by
    intro r
    induction r with
    | nil => rfl
    | cons c r' ih =>
      by_cases hc : pyWs c = true
      · rw [List.dropWhile_cons, if_pos hc, ih, List.reverse_cons,
          pipe_append_ws P hPa hc]
      · rw [List.dropWhile_cons, if_neg hc]
  have h := aux l.reverse
  rwa [List.reverse_reverse] at h

theorem pipe_stripChars (P : List Char → Bool)
    (hPc : ∀ c line, pyWs c = true → P (c :: line) = P line)
    (hPa : ∀ c line, pyWs c = true → P (line ++ [c]) = P line)
    (l : List Char) :
    pipe P (stripChars l) = pipe P l := by
  rw [stripChars, pipe_dropWhile P hPc, pipe_stripTrail P hPc hPa]

/-! ### The pre-strip of the response is a no-op on the parsed lines -/

theorem toList_mk (l : List Char) : (String.mk l).toList = l := rfl

theorem toList_pyStrip (s : String) :
    (pyStrip s).toList = stripChars s.toList := rfl

/-- The extra per-line filter of the attractions node: the line contains
a digit or a letter. -/
def hasAlnum (line : List Char) : Bool :=
  line.any (fun c => c.isDigit || c.isAlpha)

theorem ws_not_alnum {c : Char} (hc : pyWs c = true) :
    (c.isDigit || c.isAlpha) = false := by
  simp only [pyWs, Bool.or_eq_true, decide_eq_true_eq] at hc
  rcases hc with ((((h | h) | h) | h) | h) | h <;> subst h <;> decide

theorem hasAlnum_cons_ws (c : Char) (line : List Char)
    (hc : pyWs c = true) : hasAlnum (c :: line) = hasAlnum line := by
  simp [hasAlnum, List.any_cons, ws_not_alnum hc]

theorem hasAlnum_append_ws (c : Char) (line : List Char)
    (hc : pyWs c = true) : hasAlnum (line ++ [c]) = hasAlnum line := by
  simp [hasAlnum, List.any_append, ws_not_alnum hc]

theorem trueP_cons_ws (c : Char) (line : List Char)
    (hc : pyWs c = true) :
    (fun (_ : List Char) => true) (c :: line)
      = (fun (_ : List Char) => true) line := rfl

theorem trueP_append_ws (c : Char) (line : List Char)
    (hc : pyWs c = true) :
    (fun (_ : List Char) => true) (line ++ [c])
      = (fun (_ : List Char) => true) line := rfl

theorem blankPipe_eq (L : List Char) :
    ((splitNl L).filter (fun line => !(stripChars line).isEmpty)).map
        (fun line => String.mk (stripChars line))
      = (pipe (fun _ => true) L).map String.mk := by
  have h1 : lineKeep (fun _ => true)
      = fun line => !(stripChars line).isEmpty := by
    funext line
    simp [lineKeep]
  simp only [pipe, pipeLines, List.map_map, h1]
  rfl

theorem alnumPipe_eq (L : List Char) :
    ((splitNl L).filter
        (fun line => !(stripChars line).isEmpty && hasAlnum line)).map
        (fun line => String.mk (stripChars line))
      = (pipe hasAlnum L).map String.mk := by
  have h1 : lineKeep hasAlnum
      = fun line => !(stripChars line).isEmpty && hasAlnum line := rfl
  simp only [pipe, pipeLines, List.map_map, h1]
  rfl

/-- Stripping the whole response before splitting does not change the
destination lines: the node's parse equals the first 10 non-blank
stripped lines of the raw response. -/
theorem parseDestinations_eq (r : String) :
    parseDestinations r = (nonBlankLines r).take 10 := by
  have h := pipe_stripChars (fun _ => true) trueP_cons_ws trueP_append_ws
    r.toList
  simp only [parseDestinations, nonBlankLines, toList_pyStrip]
  rw [blankPipe_eq, blankPipe_eq, h]

/-- Stripping the whole response before splitting does not change the
attraction lines either: the node's parse equals the amended C6
characterisation on the raw response. -/
theorem parseAttractions_eq (r : String) :
    parseAttractions r = cleanedAttractionLines r := by
  have h := pipe_stripChars hasAlnum hasAlnum_cons_ws hasAlnum_append_ws
    r.toList
  have h2 : ((splitNl (stripChars r.toList)).filter
        (fun line => !(stripChars line).isEmpty && hasAlnum line)).map
        (fun line => String.mk (stripChars line))
      = ((splitNl r.toList).filter
        (fun line => !(stripChars line).isEmpty && hasAlnum line)).map
        (fun line => String.mk (stripChars line)) := by
    rw [alnumPipe_eq, alnumPipe_eq, h]
  simp only [parseAttractions, cleanedAttractionLines, toList_pyStrip,
    hasAlnum] at h2 ⊢
  rw [h2]

/-! ### Lemmas about the insertion-ordered dictionary -/

theorem lookup_cons_self (k : String) (b : List String)
    (t : List (String × List String)) :
    List.lookup k ((k, b) :: t) = some b := by
  rw [List.lookup_cons, show (k == k) = true by simp]

theorem lookup_cons_ne {k a : String} (h : k ≠ a) (b : List String)
    (t : List (String × List String)) :
    List.lookup k ((a, b) :: t) = List.lookup k t := by
  rw [List.lookup_cons, beq_eq_false_iff_ne.mpr h]

theorem lookup_map_replace {k k' : String} (hkk : k' ≠ k)
    (v : List String) (d : List (String × List String)) :
    (d.map (fun p => if p.1 == k then (k, v) else p)).lookup k'
      = d.lookup k' := by
  induction d with
  | nil => rfl
  | cons p t ih =>
    obtain ⟨a, b⟩ := p
    by_cases ha : a = k
    · subst ha
      simp only [List.map_cons, if_pos (by simp : ((a, b).1 == a) = true)]
      rw [lookup_cons_ne hkk, lookup_cons_ne hkk, ih]
    · simp only [List.map_cons,
        if_neg (by simpa using ha : ¬ ((a, b).1 == k) = true)]
      by_cases hk'a : k' = a
      · subst hk'a
        rw [lookup_cons_self, lookup_cons_self]
      · rw [lookup_cons_ne hk'a, lookup_cons_ne hk'a, ih]

theorem lookup_append_right {k : String}
    (d : List (String × List String)) (h : d.lookup k = none)
    (d2 : List (String × List String)) :
    (d ++ d2).lookup k = d2.lookup k := by
  induction d with
  | nil => rfl
  | cons p t ih =>
    obtain ⟨a, b⟩ := p
    by_cases hka : k = a
    · subst hka
      rw [lookup_cons_self] at h
      exact absurd h (by simp)
    · rw [lookup_cons_ne hka] at h
      rw [List.cons_append, lookup_cons_ne hka, ih h]

/-- The keys of the dictionary. -/
def dictKeys (d : List (String × List String)) : List String :=
  d.map Prod.fst

theorem not_mem_keys_lookup {k : String}
    {d : List (String × List String)} (h : k ∉ dictKeys d) :
    d.lookup k = none := by
  induction d with
  | nil => rfl
  | cons p t ih =>
    obtain ⟨a, b⟩ := p
    simp only [dictKeys, List.map_cons, List.mem_cons] at h
    push_neg at h
    rw [lookup_cons_ne h.1, ih (by simpa [dictKeys] using h.2)]

theorem lookup_map_replace_self {k : String} (v : List String) :
    ∀ d : List (String × List String), d.any (fun p => p.1 == k) = true →
      (d.map (fun p => if p.1 == k then (k, v) else p)).lookup k
        = some v := by
  intro d
  induction d with
  | nil => intro hany; simp at hany
  | cons p t ih =>
    intro hany
    obtain ⟨a, b⟩ := p
    by_cases ha : a = k
    · subst ha
      simp only [List.map_cons, if_pos (by simp : ((a, b).1 == a) = true)]
      rw [lookup_cons_self]
    · have hne : ¬ ((a, b).1 == k) = true := by simpa using ha
      have hany' : t.any (fun p => p.1 == k) = true := by
        rw [List.any_cons] at hany
        simpa [hne] using hany
      simp only [List.map_cons, if_neg hne]
      rw [lookup_cons_ne (fun h => ha h.symm), ih hany']

theorem lookup_dictInsert_self (d : List (String × List String))
    (k : String) (v : List String) :
    (dictInsert d k v).lookup k = some v := by
  unfold dictInsert
  by_cases hany : d.any (fun p => p.1 == k) = true
  · rw [if_pos hany, lookup_map_replace_self v d hany]
  · rw [if_neg hany]
    have hnk : k ∉ dictKeys d := by
      intro hmem
      apply hany
      rw [List.any_eq_true]
      simp only [dictKeys, List.mem_map] at hmem
      obtain ⟨p, hp, hpk⟩ := hmem
      exact ⟨p, hp, by simp [hpk]⟩
    rw [lookup_append_right d (not_mem_keys_lookup hnk), lookup_cons_self]

theorem lookup_dictInsert_ne (d : List (String × List String))
    {k k' : String} (h : k' ≠ k) (v : List String) :
    (dictInsert d k v).lookup k' = d.lookup k' := by
  unfold dictInsert
  by_cases hany : d.any (fun p => p.1 == k) = true
  · rw [if_pos hany, lookup_map_replace h]
  · rw [if_neg hany]
    by_cases hk' : (d.lookup k').isSome
    · obtain ⟨v', hv'⟩ := Option.isSome_iff_exists.mp hk'
      rw [hv']
      clear hany hk'
      induction d with
      | nil => simp at hv'
      | cons p t ih =>
        obtain ⟨a, b⟩ := p
        by_cases hka : k' = a
        · subst hka
          rw [lookup_cons_self] at hv'
          rw [List.cons_append, lookup_cons_self, hv']
        · rw [lookup_cons_ne hka] at hv'
          rw [List.cons_append, lookup_cons_ne hka, ih hv']
    · have hnone : d.lookup k' = none := by
        rcases hd : d.lookup k' with _ | v'
        · rfl
        · rw [hd] at hk'
          simp at hk'
      rw [hnone, lookup_append_right d hnone, lookup_cons_ne h]
      rfl

theorem dictKeys_dictInsert (d : List (String × List String))
    (k : String) (v : List String) :
    dictKeys (dictInsert d k v) =
      if k ∈ dictKeys d then dictKeys d else dictKeys d ++ [k] := by
  have hmem : d.any (fun p => p.1 == k) = true ↔ k ∈ dictKeys d := by
    rw [List.any_eq_true]
    simp only [dictKeys, List.mem_map, beq_iff_eq]
  unfold dictInsert
  by_cases hany : d.any (fun p => p.1 == k) = true
  · rw [if_pos hany, if_pos (hmem.mp hany)]
    simp only [dictKeys, List.map_map]
    apply List.map_congr_left
    intro p hp
    by_cases hpk : p.1 == k
    · simp only [Function.comp, if_pos hpk]
      exact (by simpa using hpk : p.1 = k).symm
    · simp [Function.comp, hpk]
  · rw [if_neg hany, if_neg (fun h => hany (hmem.mpr h))]
    simp [dictKeys]

theorem mem_dictKeys_dictInsert {k : String}
    (d : List (String × List String)) (x : String) (v : List String) :
    k ∈ dictKeys (dictInsert d x v) ↔ k ∈ dictKeys d ∨ k = x := by
  rw [dictKeys_dictInsert]
  by_cases hx : x ∈ dictKeys d
  · rw [if_pos hx]
    constructor
    · exact Or.inl
    · rintro (h | h)
      · exact h
      · exact h ▸ hx
  · rw [if_neg hx]
    simp [List.mem_append]

theorem length_dictInsert_new {d : List (String × List String)}
    {k : String} (h : k ∉ dictKeys d) (v : List String) :
    (dictInsert d k v).length = d.length + 1 := by
  unfold dictInsert
  have hany : ¬ d.any (fun p => p.1 == k) = true := by
    intro hc
    apply h
    rw [List.any_eq_true] at hc
    obtain ⟨p, hp, hpk⟩ := hc
    exact List.mem_map.mpr ⟨p, hp, by simpa using hpk⟩
  rw [if_neg hany]
  simp

theorem lookup_fold (model : String → Option String) :
    ∀ (dests : List String) (d : List (String × List String))
      (item : String),
      ((dests.foldl
          (fun a x => dictInsert a x (processItem model x)) d).lookup item)
        = if item ∈ dests then some (processItem model item)
          else d.lookup item := by
  intro dests
  induction dests with
  | nil => intro d item; simp
  | cons x xs ih =>
    intro d item
    rw [List.foldl_cons, ih]
    by_cases hx : item ∈ xs
    · rw [if_pos hx, if_pos (List.mem_cons_of_mem x hx)]
    · rw [if_neg hx]
      by_cases hxi : item = x
      · subst hxi
        rw [if_pos (List.mem_cons_self item xs), lookup_dictInsert_self]
      · rw [lookup_dictInsert_ne _ hxi,
          if_neg (by simp [List.mem_cons, hxi, hx])]

theorem dictKeys_fold_mem (model : String → Option String) :
    ∀ (dests : List String) (d : List (String × List String))
      (k : String),
      (k ∈ dictKeys (dests.foldl
          (fun a x => dictInsert a x (processItem model x)) d))
        ↔ k ∈ dictKeys d ∨ k ∈ dests := by
  intro dests
  induction dests with
  | nil => intro d k; simp
  | cons x xs ih =>
    intro d k
    rw [List.foldl_cons, ih, mem_dictKeys_dictInsert]
    simp only [List.mem_cons]
    tauto

theorem length_fold (model : String → Option String) :
    ∀ (dests : List String) (d : List (String × List String)),
      dests.Nodup → (∀ x ∈ dests, x ∉ dictKeys d) →
      (dests.foldl
          (fun a x => dictInsert a x (processItem model x)) d).length
        = d.length + dests.length := by
  intro dests
  induction dests with
  | nil => intro d _ _; simp
  | cons x xs ih =>
    intro d hnd hdisj
    have hx : x ∉ dictKeys d := hdisj x (List.mem_cons_self x xs)
    have hnd' : xs.Nodup := (List.nodup_cons.mp hnd).2
    have hxxs : x ∉ xs := (List.nodup_cons.mp hnd).1
    have hdisj' : ∀ y ∈ xs,
        y ∉ dictKeys (dictInsert d x (processItem model x)) := by
      intro y hy hmem
      rcases (mem_dictKeys_dictInsert d x _).mp hmem with h | h
      · exact hdisj y (List.mem_cons_of_mem x hy) h
      · exact hxxs (h ▸ hy)
    rw [List.foldl_cons, ih _ hnd' hdisj', length_dictInsert_new hx]
    simp [List.length_cons]
    omega

/-! ### Lemmas about the separator split -/

theorem dash_decomp :
    ∀ l : List Char, '-' ∈ l →
      l.takeWhile (fun c => c != '-')
          ++ '-' :: ((l.dropWhile (fun c => c != '-')).drop 1) = l := by
  intro l h
  induction l with
  | nil => cases h
  | cons c t ih =>
    by_cases hc : c = '-'
    · subst hc
      rw [List.takeWhile_cons, List.dropWhile_cons]
      simp
    · have hbne : (c != '-') = true := by simp [hc]
      have hmem : '-' ∈ t := by
        rcases List.mem_cons.mp h with h1 | h1
        · exact absurd h1.symm hc
        · exact h1
      rw [List.takeWhile_cons, List.dropWhile_cons]
      simp only [hbne, if_true]
      rw [List.cons_append, ih hmem]

theorem contains_iff_mem (l : List Char) (a : Char) :
    l.contains a = true ↔ a ∈ l :=
  List.elem_iff

/-! ### The claims -/

/-- C2: the router is total on integer control values: 1, 2 and 3 map to
the destinations, attractions and report step names respectively, and
every other integer (in particular 0, 4 and -1) maps to END. -/
theorem route_by_step_total :
    (∀ m d a, route_by_step (State.mk m d a 1) = "get_destinations")
      ∧ (∀ m d a, route_by_step (State.mk m d a 2) = "get_attractions")
      ∧ (∀ m d a, route_by_step (State.mk m d a 3) = "display_results")
      ∧ (∀ m d a, route_by_step (State.mk m d a 0) = END)
      ∧ (∀ m d a, route_by_step (State.mk m d a 4) = END)
      ∧ (∀ m d a, route_by_step (State.mk m d a (-1)) = END)
      ∧ (∀ st : State, st.step ≠ 1 → st.step ≠ 2 → st.step ≠ 3 →
          route_by_step st = END) := by
  refine ⟨fun m d a => rfl, fun m d a => rfl, fun m d a => rfl,
    fun m d a => rfl, fun m d a => rfl, fun m d a => rfl, ?_⟩
  intro st h1 h2 h3
  simp [route_by_step, h1, h2, h3]

/-- Witness for C2: the unenumerated control value 7 routes to END. -/
theorem route_by_step_total_witness :
    (State.mk [] [] [] 7).step ≠ 1 ∧ (State.mk [] [] [] 7).step ≠ 2
      ∧ (State.mk [] [] [] 7).step ≠ 3
      ∧ route_by_step (State.mk [] [] [] 7) = END :=
  ⟨by decide, by decide, by decide,
    route_by_step_total.2.2.2.2.2.2 (State.mk [] [] [] 7)
      (by decide) (by decide) (by decide)⟩

/-- C3: for every behaviour of the external model, a run from the entry
step with control 1 terminates within 3 node executions: each node
advances the control (1 to 2 to 3 to the terminal value 0) and the
router sends the terminal value to END. -/
theorem workflow_terminates_in_three_steps :
    (∀ o : Oracle,
        (runFrom o 3 "get_destinations" initial_state).isSome = true)
      ∧ (∀ response st, (get_destinations_node response st).step = some 2)
      ∧ (∀ model st, (get_attractions_node model st).step = some 3)
      ∧ (∀ st, (display_results_node st).step = some 0)
      ∧ (∀ m d a, route_by_step (State.mk m d a 0) = END) :=
  ⟨fun o => rfl, fun response st => rfl, fun model st => rfl,
    fun st => rfl, fun m d a => rfl⟩

/-- C4: the destinations step stores the first 10 non-blank lines of the
model response in order, each stripped, and its length is the minimum of
10 and the number of non-blank lines of the response. -/
theorem destinations_truncation_law :
    ∀ (response : String) (st : State),
      (get_destinations_node response st).destinations
          = some ((nonBlankLines response).take 10)
        ∧ (parseDestinations response).length
            = min 10 (nonBlankLines response).length := by
  intro response st
  constructor
  · show some (parseDestinations response) = _
    rw [parseDestinations_eq]
  · rw [parseDestinations_eq, List.length_take]

/-- C5: splitting an item at the first separator: with a separator
present the region is the prefix before the first dash and the locale
the remainder; without one the region is the sentinel and the locale the
whole item. -/
theorem separator_split_law :
    splitCountryCity "Japan-Tokyo" = ("Japan", "Tokyo")
      ∧ splitCountryCity "Tokyo" = ("Unknown", "Tokyo")
      ∧ (∀ s : String, '-' ∈ s.toList →
          (splitCountryCity s).1.toList
              ++ '-' :: (splitCountryCity s).2.toList = s.toList
            ∧ '-' ∉ (splitCountryCity s).1.toList)
      ∧ (∀ s : String, '-' ∉ s.toList →
          splitCountryCity s = ("Unknown", s)) := by
  refine ⟨by decide, by decide, ?_, ?_⟩
  · intro s h
    have hcond : s.toList.contains '-' = true := (contains_iff_mem _ _).mpr h
    constructor
    · simp only [splitCountryCity, hcond, if_true, toList_mk]
      exact dash_decomp s.toList h
    · simp only [splitCountryCity, hcond, if_true, toList_mk]
      intro hmem
      have := List.mem_takeWhile_imp hmem
      simp at this
  · intro s h
    have hcond : ¬ s.toList.contains '-' = true := by
      rw [contains_iff_mem]
      exact h
    rw [splitCountryCity, if_neg hcond]

/-- Witness for C5: a concrete item with the separator and one
without. -/
theorem separator_split_law_witness :
    ('-' ∈ ("A-B" : String).toList
        ∧ (splitCountryCity "A-B").1.toList
            ++ '-' :: (splitCountryCity "A-B").2.toList
          = ("A-B" : String).toList)
      ∧ ('-' ∉ ("X" : String).toList
        ∧ splitCountryCity "X" = ("Unknown", "X")) :=
  ⟨⟨by decide, (separator_split_law.2.2.1 "A-B" (by decide)).1⟩,
   ⟨by decide, separator_split_law.2.2.2 "X" (by decide)⟩⟩

/-- C7: the per-line cleaning maps the numbered line to its bare text
and leaves a line with no leading digit, dot or space unchanged. -/
theorem cleanup_law :
    cleanItem "2. Eiffel Tower" = "Eiffel Tower"
      ∧ cleanItem "- no marker" = "- no marker" := by
  constructor <;> rfl

/-- C8: merge policies: a delta setting only the destinations leaves the
other fields unchanged; present destinations, attractions and step
overwrite (two successive attractions deltas keep exactly the second
mapping); present messages append; absent fields are untouched. -/
theorem merge_policy_laws :
    (∀ st ds, mergeState st (StateUpdate.mk none (some ds) none none)
        = State.mk st.messages ds st.attractions st.step)
      ∧ (∀ st ms ds s a2,
          (mergeState st (StateUpdate.mk ms ds (some a2) s)).attractions
            = a2)
      ∧ (∀ st a1 a2,
          (mergeState
              (mergeState st (StateUpdate.mk none none (some a1) none))
              (StateUpdate.mk none none (some a2) none)).attractions = a2)
      ∧ (∀ st ms2 ds ats s,
          (mergeState st (StateUpdate.mk (some ms2) ds ats s)).messages
            = st.messages ++ ms2)
      ∧ (∀ st ms ds2 ats s,
          (mergeState st (StateUpdate.mk ms (some ds2) ats s)).destinations
            = ds2)
      ∧ (∀ st ms ds ats s2,
          (mergeState st (StateUpdate.mk ms ds ats (some s2))).step = s2)
      ∧ (∀ st ds ats s,
          (mergeState st (StateUpdate.mk none ds ats s)).messages
            = st.messages)
      ∧ (∀ st ms ats s,
          (mergeState st (StateUpdate.mk ms none ats s)).destinations
            = st.destinations)
      ∧ (∀ st ms ds s,
          (mergeState st (StateUpdate.mk ms ds none s)).attractions
            = st.attractions)
      ∧ (∀ st ms ds ats,
          (mergeState st (StateUpdate.mk ms ds ats none)).step
            = st.step) := by
  refine ⟨?_, fun st ms ds s a2 => rfl, fun st a1 a2 => rfl,
    fun st ms2 ds ats s => rfl, fun st ms ds2 ats s => rfl,
    fun st ms ds ats s2 => rfl, ?_, fun st ms ats s => rfl,
    fun st ms ds s => rfl, fun st ms ds ats => rfl⟩
  · intro st ds
    simp [mergeState]
  · intro st ds ats s
    simp [mergeState]

/-- C9: only the destinations step appends to the conversation: the
attractions step returns an empty conversation delta, the report step a
delta with only the control field, and after a full run from the empty
initial state the conversation holds exactly the one raw model
response. -/
theorem conversation_single_message :
    (∀ model st, (get_attractions_node model st).messages = some [])
      ∧ (∀ st, display_results_node st
          = StateUpdate.mk none none none (some 0))
      ∧ (∀ o : Oracle,
          (runFrom o 3 "get_destinations" initial_state).map State.messages
            = some [o.destResponse]) :=
  ⟨fun model st => rfl, fun st => rfl, fun o => rfl⟩

theorem lookup_results (model : String → Option String)
    (items : List String) (item : String) :
    (get_attractions_results model items).lookup item
      = if item ∈ items then some (processItem model item) else none := by
  unfold get_attractions_results
  rw [lookup_fold]
  rfl

/-- C1: the attractions step covers every item exactly once, whatever
the model does: the empty worklist yields the empty mapping; every item
of the list has an entry, the degraded single-element marker when its
model call raises; only items of the list have entries; distinct items
give exactly one entry each; and one item's entry depends only on the
model's behaviour at that item, so a failure elsewhere leaves it
unchanged. -/
theorem attractions_total_coverage :
    (∀ model, get_attractions_results model [] = [])
      ∧ (∀ model (items : List String) item, item ∈ items →
          (get_attractions_results model items).lookup item
            = some (processItem model item))
      ∧ (∀ model (items : List String) item, item ∈ items →
          model (splitCountryCity item).2 = none →
          (get_attractions_results model items).lookup item
            = some ["Error retrieving attractions"])
      ∧ (∀ model (items : List String) k,
          ((get_attractions_results model items).lookup k).isSome = true →
          k ∈ items)
      ∧ (∀ model (items : List String), items.Nodup →
          (get_attractions_results model items).length = items.length)
      ∧ (∀ m1 m2 (items : List String) item, item ∈ items →
          m1 (splitCountryCity item).2 = m2 (splitCountryCity item).2 →
          (get_attractions_results m1 items).lookup item
            = (get_attractions_results m2 items).lookup item) := by
  refine ⟨fun model => rfl, ?_, ?_, ?_, ?_, ?_⟩
  · intro model items item h
    rw [lookup_results, if_pos h]
  · intro model items item h hm
    rw [lookup_results, if_pos h]
    unfold processItem
    rw [hm]
  · intro model items k h
    rw [lookup_results] at h
    by_cases hk : k ∈ items
    · exact hk
    · rw [if_neg hk] at h
      simp at h
  · intro model items hnd
    unfold get_attractions_results
    have h := length_fold model items [] hnd
      (by intro x hx; simp [dictKeys])
    simpa using h
  · intro m1 m2 items item h hm
    rw [lookup_results, lookup_results, if_pos h, if_pos h]
    unfold processItem
    rw [hm]

/-- Witness for C1: three items where the model raises exactly on the
second; the mapping has 3 entries, the second being the degraded
marker. -/
theorem attractions_total_coverage_witness :
    ("Japan-Tokyo"
        ∈ (["France-Paris", "Japan-Tokyo", "Italy-Rome"] : List String))
      ∧ ((fun city => if city = "Tokyo" then none
            else some "1. Colosseum\n2. Pantheon")
          (splitCountryCity "Japan-Tokyo").2 = (none : Option String))
      ∧ (get_attractions_results
            (fun city => if city = "Tokyo" then none
              else some "1. Colosseum\n2. Pantheon")
            ["France-Paris", "Japan-Tokyo", "Italy-Rome"]).lookup
            "Japan-Tokyo"
          = some ["Error retrieving attractions"]
      ∧ (["France-Paris", "Japan-Tokyo", "Italy-Rome"] : List String).Nodup
      ∧ (get_attractions_results
            (fun city => if city = "Tokyo" then none
              else some "1. Colosseum\n2. Pantheon")
            ["France-Paris", "Japan-Tokyo", "Italy-Rome"]).length = 3 := by
  refine ⟨by decide, by decide, ?_, by decide, ?_⟩
  · exact attractions_total_coverage.2.2.1 _ _ _ (by decide) (by decide)
  · have h := attractions_total_coverage.2.2.2.2.1
      (fun city => if city = "Tokyo" then none
        else some "1. Colosseum\n2. Pantheon")
      ["France-Paris", "Japan-Tokyo", "Italy-Rome"] (by decide)
    simpa using h

/-- C6 (amended): for every item processed without a raised exception,
the stored attraction list is the sequence of non-blank lines of the
model response that contain at least one digit or letter, each stripped
of surrounding whitespace and of leading digits, dots and spaces, with
entries that become empty dropped, truncated to the first 5. -/
theorem attractions_cleaning_amended :
    ∀ (model : String → Option String) (destinations : List String)
      (item : String) (response : String),
      item ∈ destinations →
      model (splitCountryCity item).2 = some response →
      (get_attractions_results model destinations).lookup item
        = some (cleanedAttractionLines response) := by
  intro model dests item response h hm
  rw [lookup_results, if_pos h]
  have hp : processItem model item = parseAttractions response := by
    unfold processItem
    rw [hm]
  rw [hp, parseAttractions_eq]

/-- Witness for C6 (amended): one item whose model response is a clean
two-line numbered list. -/
theorem attractions_cleaning_amended_witness :
    ("France-Paris" ∈ (["France-Paris"] : List String))
      ∧ ((fun city : String => some "1. Louvre\n2. Eiffel Tower")
          (splitCountryCity "France-Paris").2
        = some "1. Louvre\n2. Eiffel Tower")
      ∧ (get_attractions_results
            (fun city => some "1. Louvre\n2. Eiffel Tower")
            ["France-Paris"]).lookup "France-Paris"
          = some (cleanedAttractionLines "1. Louvre\n2. Eiffel Tower") :=
  ⟨by decide, rfl,
    attractions_cleaning_amended _ _ _ _ (by decide) rfl⟩

/-- Counterexample to C6 as stated: on the response whose first line is
"***" (non-blank, but holding no digit or letter), the stored list is
just the second line, while the sequence the claim describes keeps the
"***" line (marker stripping does not remove it). -/
theorem attractions_cleaning_counterexample :
    (get_attractions_results (fun city => some "***\nEiffel Tower")
          ["France-Paris"]).lookup "France-Paris"
        = some ["Eiffel Tower"]
      ∧ claimedCleanedLines "***\nEiffel Tower" = ["***", "Eiffel Tower"]
      ∧ (get_attractions_results (fun city => some "***\nEiffel Tower")
            ["France-Paris"]).lookup "France-Paris"
          ≠ some (claimedCleanedLines "***\nEiffel Tower") := by
  refine ⟨by decide, by decide, by decide⟩

/-- C10: after the attractions step, every string in every stored value
is non-empty: lines cleaned to emptiness are dropped, and the degraded
marker is a single non-empty string. -/
theorem results_entries_nonempty :
    ∀ (model : String → Option String) (items : List String)
      (k : String) (v : List String) (s : String),
      (get_attractions_results model items).lookup k = some v →
      s ∈ v → s ≠ "" := by
  intro model items k v s hv hs
  rw [lookup_results] at hv
  by_cases hk : k ∈ items
  · rw [if_pos hk] at hv
    have hv' : processItem model k = v := Option.some.inj hv
    rcases hmodel : model (splitCountryCity k).2 with _ | resp
    · have hverr : v = ["Error retrieving attractions"] := by
        rw [← hv']
        unfold processItem
        rw [hmodel]
      rw [hverr, List.mem_singleton] at hs
      subst hs
      decide
    · have hvp : v = parseAttractions resp := by
        rw [← hv']
        unfold processItem
        rw [hmodel]
      rw [hvp] at hs
      simp only [parseAttractions] at hs
      have hs2 := List.take_subset _ _ hs
      have hfil := (List.mem_filter.mp hs2).2
      intro hempty
      subst hempty
      exact absurd hfil (by decide)
  · rw [if_neg hk] at hv
    exact absurd hv (by simp)

/-- Witness for C10: a concrete stored entry and its non-empty
element. -/
theorem results_entries_nonempty_witness :
    (get_attractions_results (fun city => some "1. A") ["X-Y"]).lookup
        "X-Y" = some ["A"]
      ∧ ("A" ∈ (["A"] : List String)) ∧ ("A" : String) ≠ "" :=
  ⟨by decide, by decide,
    results_entries_nonempty (fun city => some "1. A") ["X-Y"] "X-Y"
      ["A"] "A" (by decide) (by decide)⟩

end Tourist
